import Mathlib

/-!
Verification of the order-lifecycle coordination core of the trading agent.

The definitions below are a shallow embedding of the Python sources:
  * `round_up_to_one_significant`, `ParallelOrderManager.place_new_orders`,
    `amend_order`, `monitor_active_orders`, `recover_state`,
    `graceful_shutdown` from `src/amend/A/parallel_order_manager.py`;
  * `GateIOAPIClient.calculate_order_amount` from `src/amend/A/gateio_api.py`;
  * `handle_order_execution` from `src/f_test/parallel_order_manager.py`
    and `src/w_test/parallel_order_manager.py`.

Python floats are modelled as rationals, Python dicts keeping insertion
order are modelled as association lists, and the two transport paths
(push channel and synchronous fallback) are modelled as outcome oracles
passed in as parameters.  Mutation is modelled by explicit state passing;
the per-instance locks serialize each loop body in the source, so the
sequential state-passing semantics is faithful for the properties below.
-/

/-- Order side, the `order_type` strings of the Python code. -/
inductive Side
  | buy
  | sell
  deriving DecidableEq, Repr

/-- One entry of `state.active_orders` (`src/amend/A/parallel_order_manager.py`):
the dict stored per instance index at placement time. -/
structure OrderRec where
  order_id : Option Nat
  client_order_id : Option Nat
  last_price : ℚ
  limit_price : ℚ
  order_type : Side
  executed_amount : Option ℚ := none
  deriving DecidableEq, Repr

/-- The shared mutable state (`OrderState` in `src/amend/A/trading_strategy.py`
plus the `pending_flags` map used by `src/amend/A/parallel_order_manager.py`).
`active_orders` is an insertion-ordered association list keyed by instance
index, as a Python dict is. -/
structure BotState where
  active_orders : List (Nat × OrderRec)
  pending_flags : Nat → Bool
  order_type : Option Side
  last_buy_amount : Option ℚ

/-- Python `self.state.active_orders.get(i)`. -/
def lookupL (l : List (Nat × OrderRec)) (i : Nat) : Option OrderRec :=
  (l.find? fun e => e.1 == i).map Prod.snd

/-- Python `del self.state.active_orders[i]`. -/
def eraseL (l : List (Nat × OrderRec)) (i : Nat) : List (Nat × OrderRec) :=
  l.filter fun e => !(e.1 == i)

/-- Lookup of an instance record in the ledger. -/
def lookupOrder (s : BotState) (i : Nat) : Option OrderRec :=
  lookupL s.active_orders i

/-- Python `self.state.pending_flags[i] = b`. -/
def setPending (s : BotState) (i : Nat) (b : Bool) : BotState :=
  { s with pending_flags := fun j => if j = i then b else s.pending_flags j }

/-- Python mutation of the record stored for key `i`
(for example `order_state['last_price'] = new_price`). -/
def replaceOrder (s : BotState) (i : Nat) (rec : OrderRec) : BotState :=
  { s with active_orders := s.active_orders.map fun e => if e.1 = i then (i, rec) else e }

/-- From `src/amend/A/parallel_order_manager.py`, `round_up_to_one_significant`:
rounds a positive magnitude up to one significant decimal digit.
Python `math.floor(math.log10(abs(x)))` is `Int.log 10 |x|`,
`int(abs(x) / factor)` is the floor of the nonnegative quotient, and the
carry case `first_digit == 10` returns `1 * 10 ** (exponent + 1)`. -/
def round_up_to_one_significant (x : ℚ) : ℚ :=
  if x = 0 then 0
  else if (⌊|x| / (10 : ℚ) ^ Int.log 10 |x|⌋ : ℚ) * (10 : ℚ) ^ Int.log 10 |x| < |x| then
    if ⌊|x| / (10 : ℚ) ^ Int.log 10 |x|⌋ + 1 = 10 then
      (1 : ℚ) * (10 : ℚ) ^ (Int.log 10 |x| + 1)
    else ((⌊|x| / (10 : ℚ) ^ Int.log 10 |x|⌋ + 1 : ℤ) : ℚ) * (10 : ℚ) ^ Int.log 10 |x|
  else (⌊|x| / (10 : ℚ) ^ Int.log 10 |x|⌋ : ℚ) * (10 : ℚ) ^ Int.log 10 |x|

/-- Errors raised inside `GateIOAPIClient.calculate_order_amount`
(`src/amend/A/gateio_api.py`): the `ValueError` for a missing `fixed_usdt`
is the spec's `ConfigError`, the `ZeroDivisionError` of
`float(fixed_usdt) / limit_price` is the spec's `DivideByZero`. -/
inductive AmountError
  | ConfigError
  | DivideByZero
  | MissingCustomAmount
  | InvalidSide
  deriving DecidableEq, Repr

/-- The `try` body of `GateIOAPIClient.calculate_order_amount`
(`src/amend/A/gateio_api.py`).  `fixed_usdt` is
`config['trading']['buy'].get('fixed_usdt')`. -/
def calculate_order_amount_checked (fixed_usdt : Option ℚ) (side : Side)
    (limit_price : ℚ) (custom_amount : Option ℚ) : Except AmountError ℚ :=
  match side with
  | .buy =>
    match fixed_usdt with
    | none => .error .ConfigError
    | some f =>
      if limit_price = 0 then .error .DivideByZero
      else .ok (f / limit_price)
  | .sell =>
    match custom_amount with
    | some c => .ok c
    | none => .error .MissingCustomAmount

/-- `GateIOAPIClient.calculate_order_amount` as callers see it: the
`except` handler logs the error and returns `0`. -/
def calculate_order_amount (fixed_usdt : Option ℚ) (side : Side)
    (limit_price : ℚ) (custom_amount : Option ℚ) : ℚ :=
  match calculate_order_amount_checked fixed_usdt side limit_price custom_amount with
  | .ok a => a
  | .error _ => 0

/-- The sell sizing of `place_new_orders` (`src/amend/A/parallel_order_manager.py`
lines 44-48): `last_buy_amount - round_up_to_one_significant (last_buy_amount * fee_rate)`. -/
def sell_amount (last_buy_amount fee_rate : ℚ) : ℚ :=
  last_buy_amount - round_up_to_one_significant (last_buy_amount * fee_rate)

/-- Key property of the rounding helper: on a positive input the result
never drops below the input (the fee overestimate is conservative). -/
theorem round_up_to_one_significant_ge (x : ℚ) (hx : 0 < x) :
    x ≤ round_up_to_one_significant x := by
  unfold round_up_to_one_significant
  rw [if_neg hx.ne', abs_of_pos hx]
  have hb : (1 : ℕ) < 10 := by norm_num
  have hcast : ((10 : ℕ) : ℚ) = (10 : ℚ) := by norm_num
  set e : ℤ := Int.log 10 x with he
  set f : ℚ := (10 : ℚ) ^ e with hf
  have hfpos : (0 : ℚ) < f := by
    rw [hf]; exact zpow_pos (by norm_num) e
  have hle : f ≤ x := by
    have h := Int.zpow_log_le_self (R := ℚ) hb hx
    rw [hcast] at h
    exact h
  have hsucc : x < (10 : ℚ) ^ (e + 1) := by
    have h := Int.lt_zpow_succ_log_self (R := ℚ) hb x
    rw [hcast] at h
    exact h
  set d : ℤ := ⌊x / f⌋ with hd
  have hdle : (d : ℚ) * f ≤ x := by
    have h1 : (d : ℚ) ≤ x / f := Int.floor_le (x / f)
    have h2 := mul_le_mul_of_nonneg_right h1 hfpos.le
    rwa [div_mul_cancel₀ x hfpos.ne'] at h2
  have hdlt : x < ((d : ℚ) + 1) * f := by
    have h1 : x / f < (d : ℚ) + 1 := Int.lt_floor_add_one (x / f)
    calc x = x / f * f := (div_mul_cancel₀ x hfpos.ne').symm
    _ < ((d : ℚ) + 1) * f := by
        exact mul_lt_mul_of_pos_right h1 hfpos
  by_cases hcond : (d : ℚ) * f < x
  · rw [if_pos hcond]
    by_cases h10 : d + 1 = 10
    · rw [if_pos h10, one_mul]
      exact hsucc.le
    · rw [if_neg h10]
      push_cast
      linarith
  · rw [if_neg hcond]
    exact le_of_not_lt hcond

/-- Positivity of the rounding helper on positive inputs. -/
theorem round_up_to_one_significant_pos (x : ℚ) (hx : 0 < x) :
    0 < round_up_to_one_significant x :=
  lt_of_lt_of_le hx (round_up_to_one_significant_ge x hx)

/-- C4: the rounding helper never rounds down on positive inputs, and the
fee-adjusted sell quantity is strictly smaller than the carried buy
quantity whenever the fee rate is positive. -/
theorem c4_round_up_monotone_and_sell_amount_lt :
    (∀ x : ℚ, 0 < x → x ≤ round_up_to_one_significant x) ∧
    (∀ c feeRate : ℚ, 0 < c → 0 < feeRate →
      c - round_up_to_one_significant (c * feeRate) < c) := by
  constructor
  · exact round_up_to_one_significant_ge
  · intro c feeRate hc hfee
    have hpos : 0 < round_up_to_one_significant (c * feeRate) :=
      round_up_to_one_significant_pos _ (mul_pos hc hfee)
    linarith

/-- Witness for C4 at concrete inputs. -/
theorem c4_round_up_monotone_and_sell_amount_lt_witness :
    ((0 : ℚ) < 3 ∧ (3 : ℚ) ≤ round_up_to_one_significant 3) ∧
    ((0 : ℚ) < 1 ∧ (0 : ℚ) < 1 / 1000 ∧
      (1 : ℚ) - round_up_to_one_significant (1 * (1 / 1000)) < 1) :=
  ⟨⟨by norm_num, c4_round_up_monotone_and_sell_amount_lt.1 3 (by norm_num)⟩,
   ⟨by norm_num, by norm_num,
    c4_round_up_monotone_and_sell_amount_lt.2 1 (1 / 1000) (by norm_num) (by norm_num)⟩⟩

/-- The transport's view of an accepted order: the dict returned by
`place_stop_limit_order_ws` / `place_stop_limit_order`, of which
`place_new_orders` reads `id` and `client_order_id` with `.get`. -/
structure Order where
  id : Option Nat
  client_order_id : Option Nat
  deriving DecidableEq, Repr

/-- One attempted submission by `place_new_orders`: the arguments passed to
the transport together with whether any transport path returned an order. -/
structure PlaceEvent where
  index : Nat
  side : Side
  trigger : ℚ
  limit : ℚ
  amount : ℚ
  success : Bool
  deriving DecidableEq, Repr

/-- Tail of the `place_new_orders` loop body
(`src/amend/A/parallel_order_manager.py` lines 55-73): try the push channel,
fall back to the synchronous path, record the new ledger entry on success,
clear the pending flag in every case. -/
def place_finish (wsPlace apiPlace : Nat → Option Order) (s1 : BotState) (i : Nat)
    (last_price : ℚ) (ot : Side) (pr : ℚ × ℚ) (amount : ℚ) :
    BotState × Option PlaceEvent :=
  match (wsPlace i).orElse (fun _ => apiPlace i) with
  | some o =>
    (setPending { s1 with active_orders := s1.active_orders ++
        [(i, { order_id := o.id, client_order_id := o.client_order_id,
               last_price := last_price, limit_price := pr.2, order_type := ot,
               executed_amount := none })] } i false,
     some ⟨i, ot, pr.1, pr.2, amount, true⟩)
  | none => (setPending s1 i false, some ⟨i, ot, pr.1, pr.2, amount, false⟩)

/-- One iteration of the `place_new_orders` loop
(`src/amend/A/parallel_order_manager.py` lines 28-73).  The two initial
skips are the pending-flag gate and the already-active check; a sell with
no `last_buy_amount` releases the flag and skips. -/
def place_step (fee_rate : ℚ) (fixed_usdt : Option ℚ)
    (wsPlace apiPlace : Nat → Option Order)
    (calculate_prices : ℚ → Side → Nat → ℚ × ℚ)
    (market_price : Nat → ℚ) (s : BotState) (i : Nat) :
    BotState × Option PlaceEvent :=
  if s.pending_flags i then (s, none)
  else if (lookupOrder s i).isSome then (s, none)
  else
    let s1 := setPending s i true
    let last_price := market_price i
    let ot := s1.order_type.getD .buy
    let pr := calculate_prices last_price ot i
    match ot, s1.last_buy_amount with
    | .sell, none => (setPending s1 i false, none)
    | .sell, some lba =>
      place_finish wsPlace apiPlace s1 i last_price .sell pr (sell_amount lba fee_rate)
    | .buy, _ =>
      place_finish wsPlace apiPlace s1 i last_price .buy pr
        (calculate_order_amount fixed_usdt .buy pr.2 none)

/-- The `for instance_index in range(total_instances)` loop of
`place_new_orders`, threaded over the explicit index list. -/
def place_go (fee_rate : ℚ) (fixed_usdt : Option ℚ)
    (wsPlace apiPlace : Nat → Option Order)
    (calculate_prices : ℚ → Side → Nat → ℚ × ℚ)
    (market_price : Nat → ℚ) : List Nat → BotState → BotState × List PlaceEvent
  | [], s => (s, [])
  | i :: rest, s =>
    let r := place_step fee_rate fixed_usdt wsPlace apiPlace calculate_prices market_price s i
    let r2 := place_go fee_rate fixed_usdt wsPlace apiPlace calculate_prices market_price rest r.1
    (r2.1, r.2.toList ++ r2.2)

/-- `ParallelOrderManager.place_new_orders` of
`src/amend/A/parallel_order_manager.py`. -/
def place_new_orders (fee_rate : ℚ) (fixed_usdt : Option ℚ)
    (wsPlace apiPlace : Nat → Option Order)
    (calculate_prices : ℚ → Side → Nat → ℚ × ℚ)
    (market_price : Nat → ℚ) (total_instances : Nat) (s : BotState) :
    BotState × List PlaceEvent :=
  place_go fee_rate fixed_usdt wsPlace apiPlace calculate_prices market_price
    (List.range total_instances) s

/-- One amendment attempt as submitted to the transport by `amend_order`:
the recomputed trigger/limit pair and whether either path acknowledged. -/
structure AmendAttempt where
  index : Nat
  trigger : ℚ
  limit : ℚ
  success : Bool
  deriving DecidableEq, Repr

/-- `ParallelOrderManager.amend_order` of
`src/amend/A/parallel_order_manager.py` (lines 75-108).  Returns the state
plus the attempt submitted, `none` when the method returned early (no
active record, or the pending-flag gate refused).  On either transport
path's success only `last_price` is mutated (line 97 resp. 104); the flag
is cleared at the end of every completed path (line 108).  The buy-side
`new_amount` recomputation only feeds the transport call, so it does not
appear in the state. -/
def amend_order (wsAmend apiAmend : Nat → Bool)
    (calculate_prices : ℚ → Side → Nat → ℚ × ℚ) (new_price : ℚ)
    (i : Nat) (s : BotState) : BotState × Option AmendAttempt :=
  match lookupOrder s i with
  | none => (s, none)
  | some os =>
    if s.pending_flags i then (s, none)
    else
      let s1 := setPending s i true
      let pr := calculate_prices new_price os.order_type i
      if wsAmend i then
        (setPending (replaceOrder s1 i { os with last_price := new_price }) i false,
         some ⟨i, pr.1, pr.2, true⟩)
      else if apiAmend i then
        (setPending (replaceOrder s1 i { os with last_price := new_price }) i false,
         some ⟨i, pr.1, pr.2, true⟩)
      else
        (setPending s1 i false, some ⟨i, pr.1, pr.2, false⟩)

/-- Loop body sequence of `ParallelOrderManager.monitor_active_orders`
(`src/amend/A/parallel_order_manager.py` lines 112-133) over the snapshot
of ledger keys.  Faithful to the source's control flow: the two `continue`
statements (pending, vanished record) skip the `amend_order` call, but
when the loop body falls through the lock block, `amend_order` is invoked
whether or not `condition` held — the `condition` branch only sets the
pending flag first (line 132). -/
def monitor_go (wsAmend apiAmend : Nat → Bool)
    (calculate_prices : ℚ → Side → Nat → ℚ × ℚ) (current_price : ℚ) :
    List Nat → BotState → BotState × List AmendAttempt
  | [], s => (s, [])
  | i :: rest, s =>
    if s.pending_flags i then monitor_go wsAmend apiAmend calculate_prices current_price rest s
    else
      match lookupOrder s i with
      | none => monitor_go wsAmend apiAmend calculate_prices current_price rest s
      | some os =>
        let condition : Bool :=
          if os.order_type = .buy ∧ current_price < os.last_price then true
          else if os.order_type = .sell ∧ os.last_price < current_price then true
          else false
        let s1 := if condition then setPending s i true else s
        let r := amend_order wsAmend apiAmend calculate_prices current_price i s1
        let r2 := monitor_go wsAmend apiAmend calculate_prices current_price rest r.1
        (r2.1, r.2.toList ++ r2.2)

/-- `ParallelOrderManager.monitor_active_orders` of
`src/amend/A/parallel_order_manager.py`. -/
def monitor_active_orders (wsAmend apiAmend : Nat → Bool)
    (calculate_prices : ℚ → Side → Nat → ℚ × ℚ) (current_price : ℚ)
    (s : BotState) : BotState × List AmendAttempt :=
  monitor_go wsAmend apiAmend calculate_prices current_price
    (s.active_orders.map Prod.fst) s

/-- Outcome of one `cancel_order_ws` / `cancel_order` call: acknowledged,
refused (returned falsy), or raised an exception (always caught by the
callers modelled here). -/
inductive CancelOutcome
  | ok
  | failed
  | raised
  deriving DecidableEq, Repr

/-- `ParallelOrderManager.recover_state` with an explicit index
(`src/amend/A/parallel_order_manager.py` lines 141-155): attempt the
cancel — any of the three outcomes is only logged — then delete the
ledger record.  The pending flags are not touched by this method. -/
def recover_state_one (cancel : Nat → CancelOutcome) (i : Nat) (s : BotState) : BotState :=
  match lookupOrder s i with
  | none => s
  | some _ =>
    match cancel i with
    | _ => { s with active_orders := eraseL s.active_orders i }

/-- Iteration of `recover_state` without an index over a key snapshot. -/
def recover_go (cancel : Nat → CancelOutcome) : List Nat → BotState → BotState
  | [], s => s
  | i :: rest, s => recover_go cancel rest (recover_state_one cancel i s)

/-- `ParallelOrderManager.recover_state()` with no index
(`src/amend/A/parallel_order_manager.py` lines 156-158): recover every
instance in the key snapshot. -/
def recover_state_all (cancel : Nat → CancelOutcome) (s : BotState) : BotState :=
  recover_go cancel (s.active_orders.map Prod.fst) s

/-- Events emitted during `graceful_shutdown`: a buy cancel (phase 1), a
sell cancel with its stored limit price and outcome, and a market-sell
submission for an executed amount (phase 2). -/
inductive ShutEvent
  | cancelBuy (i : Nat)
  | sellCancel (i : Nat) (limit : ℚ) (success : Bool)
  | marketSell (i : Nat) (amount : ℚ) (success : Bool)
  deriving DecidableEq, Repr

/-- Phase 1 of `graceful_shutdown` (`src/amend/A/parallel_order_manager.py`
lines 164-176): iterate the key snapshot, re-read each record, cancel and
delete the buys (the cancel outcome, including a raised exception, is only
logged). -/
def phase1L : List Nat → List (Nat × OrderRec) → List (Nat × OrderRec) × List ShutEvent
  | [], l => (l, [])
  | i :: ks, l =>
    match lookupL l i with
    | some rec =>
      if rec.order_type = .buy then
        let r := phase1L ks (eraseL l i)
        (r.1, .cancelBuy i :: r.2)
      else phase1L ks l
    | none => phase1L ks l

/-- Stable insertion into a list sorted ascending by `limit_price`;
elements with an equal key keep their original relative order, as
Python's stable `list.sort` does. -/
def insertByLimit (a : Nat × OrderRec) :
    List (Nat × OrderRec) → List (Nat × OrderRec)
  | [] => [a]
  | b :: bs =>
    if b.2.limit_price < a.2.limit_price then b :: insertByLimit a bs
    else a :: b :: bs

/-- The `sell_orders.sort(key=lambda x: x[1].get('limit_price', float('inf')))`
of `graceful_shutdown`: a stable ascending sort by stored limit price. -/
def sortByLimit : List (Nat × OrderRec) → List (Nat × OrderRec)
  | [] => []
  | a :: as_ => insertByLimit a (sortByLimit as_)

/-- Phase 2 of `graceful_shutdown` (`src/amend/A/parallel_order_manager.py`
lines 184-209) over the sorted sell list: cancel; when the cancel is
acknowledged and the stored `executed_amount` is a positive quantity,
submit a market sell for it (`if not amount or amount <= 0` skips `None`,
zero and negatives); the `finally` block deletes the ledger entry in
every case, a raised cancel included. -/
def phase2L (cancel : Nat → CancelOutcome) (market : Nat → Bool) :
    List (Nat × OrderRec) → List (Nat × OrderRec) →
    List (Nat × OrderRec) × List ShutEvent
  | [], l => (l, [])
  | (i, rec) :: ps, l =>
    let evs : List ShutEvent :=
      if cancel i = .ok then
        .sellCancel i rec.limit_price true ::
          (match rec.executed_amount with
           | some a => if 0 < a then [.marketSell i a (market i)] else []
           | none => [])
      else [.sellCancel i rec.limit_price false]
    let r := phase2L cancel market ps (eraseL l i)
    (r.1, evs ++ r.2)

/-- `ParallelOrderManager.graceful_shutdown` of
`src/amend/A/parallel_order_manager.py` (lines 161-210): cancel and drop
every buy, then collect the remaining sells, sort them ascending by
stored limit price, and process each in that order. -/
def graceful_shutdown (cancel : Nat → CancelOutcome) (market : Nat → Bool)
    (s : BotState) : BotState × List ShutEvent :=
  let r1 := phase1L (s.active_orders.map Prod.fst) s.active_orders
  let sells := r1.1.filter fun e => e.2.order_type == Side.sell
  let sorted := sortByLimit sells
  let r2 := phase2L cancel market sorted r1.1
  ({ s with active_orders := r2.1 }, r1.2 ++ r2.2)

/-- A fill/execution event as read by the two `handle_order_execution`
revisions: the optional `filled` and `amount` fields. -/
structure ExecEvent where
  filled : Option ℚ := none
  amount : Option ℚ := none
  deriving DecidableEq, Repr

/-- `ParallelOrderManager.handle_order_execution` of
`src/f_test/parallel_order_manager.py` (lines 114-147), keyed by instance
index: a missing record is logged and the method returns; for a buy the
`filled` (else `amount`, else 0) quantity is stored into the record and
into the global `last_buy_amount`; the record is then deleted. -/
def f_handle_order_execution (s : BotState) (i : Nat) (ev : ExecEvent) : BotState :=
  match lookupOrder s i with
  | none => s
  | some os =>
    match os.order_type with
    | .buy =>
      let executed : ℚ :=
        match ev.filled with
        | some q => q
        | none => ev.amount.getD 0
      let s1 := replaceOrder s i { os with executed_amount := some executed }
      let s2 := { s1 with last_buy_amount := some executed }
      { s2 with active_orders := eraseL s2.active_orders i }
    | .sell => { s with active_orders := eraseL s.active_orders i }

/-- `ParallelOrderManager.handle_order_execution` of
`src/w_test/parallel_order_manager.py` (lines 140-156), keyed by the
exchange order id: a missing record is logged and the method returns; a
buy stores `event.get('filled', 0.0)` into `last_buy_amount`; the record
is then deleted. -/
def w_handle_order_execution (s : BotState) (oid : Nat) (ev : ExecEvent) : BotState :=
  match lookupOrder s oid with
  | none => s
  | some os =>
    let s1 :=
      if os.order_type = .buy then { s with last_buy_amount := some (ev.filled.getD 0) }
      else s
    { s1 with active_orders := eraseL s1.active_orders oid }

/-- Modelled from the spec: `SweepExpiredPending` does not exist under
`src/` — only the `pending_actions` map it would sweep is declared
(`src/amend/A/trading_strategy.py` line 15, `{instance_index: timestamp}`).
Following spec section 4.4 and property P6, the sweep force-clears every
entry whose pending timestamp `T` satisfies `now ≥ T + timeout` and keeps
every other entry. -/
def sweep_expired_pending (now timeout : ℚ) (pending_actions : List (Nat × ℚ)) :
    List (Nat × ℚ) :=
  pending_actions.filter fun p => decide (now < p.2 + timeout)

/-- C6: for a buy the amount computation returns `fixedNotional / limitPrice`
(Scenario A: 100 / 50000 = 0.002), raises the configuration error when no
fixed notional is set, and raises the division-by-zero error when the
limit price is zero. -/
theorem c6_buy_amount_formula_and_errors :
    (∀ fixedNotional limitPrice : ℚ, limitPrice ≠ 0 →
      calculate_order_amount_checked (some fixedNotional) .buy limitPrice none
        = .ok (fixedNotional / limitPrice)) ∧
    (∀ limitPrice : ℚ,
      calculate_order_amount_checked none .buy limitPrice none
        = .error .ConfigError) ∧
    (∀ fixedNotional : ℚ,
      calculate_order_amount_checked (some fixedNotional) .buy 0 none
        = .error .DivideByZero) ∧
    calculate_order_amount_checked (some 100) .buy 50000 none = .ok (2 / 1000) := by
  refine ⟨?_, ?_, ?_, ?_⟩
  · intro f l hl
    simp [calculate_order_amount_checked, hl]
  · intro l
    rfl
  · intro f
    simp [calculate_order_amount_checked]
  · have : (100 : ℚ) / 50000 = 2 / 1000 := by norm_num
    simp [calculate_order_amount_checked, this]

/-- Witness for C6: Scenario A with a nonzero limit price. -/
theorem c6_buy_amount_formula_and_errors_witness :
    (50000 : ℚ) ≠ 0 ∧
    calculate_order_amount_checked (some 100) .buy 50000 none
      = .ok ((100 : ℚ) / 50000) :=
  ⟨by norm_num, c6_buy_amount_formula_and_errors.1 100 50000 (by norm_num)⟩

/-- C7: a fill event delivered for an instance whose record is already
cleared is a no-op in both execution-handler revisions: the state — in
particular `last_buy_amount` — is returned unchanged and no code path
fails. -/
theorem c7_duplicate_execution_event_noop :
    ∀ (s : BotState) (i : Nat) (ev : ExecEvent), lookupOrder s i = none →
      f_handle_order_execution s i ev = s ∧ w_handle_order_execution s i ev = s := by
  intro s i ev h
  constructor
  · unfold f_handle_order_execution
    rw [h]
  · unfold w_handle_order_execution
    rw [h]

/-- The state at startup: every instance `Empty`. -/
def emptyState : BotState :=
  { active_orders := [], pending_flags := fun _ => false,
    order_type := some .buy, last_buy_amount := none }

/-- Witness for C7 on the startup state. -/
theorem c7_duplicate_execution_event_noop_witness :
    lookupOrder emptyState 0 = none ∧
    f_handle_order_execution emptyState 0 { filled := some 2 } = emptyState ∧
    w_handle_order_execution emptyState 0 { filled := some 2 } = emptyState :=
  ⟨rfl,
   (c7_duplicate_execution_event_noop emptyState 0 { filled := some 2 } rfl).1,
   (c7_duplicate_execution_event_noop emptyState 0 { filled := some 2 } rfl).2⟩

/-- C8: an instance marked pending at time `T` with timeout `τ` is swept
exactly when `now ≥ T + τ`, and kept strictly before that. -/
theorem c8_sweep_releases_exactly_on_timeout
    (now timeout : ℚ) (pending_actions : List (Nat × ℚ)) (i : Nat) (T : ℚ)
    (hmem : (i, T) ∈ pending_actions) :
    ((i, T) ∉ sweep_expired_pending now timeout pending_actions ↔ T + timeout ≤ now) ∧
    ((i, T) ∈ sweep_expired_pending now timeout pending_actions ↔ now < T + timeout) := by
  have hin : (i, T) ∈ sweep_expired_pending now timeout pending_actions ↔ now < T + timeout := by
    unfold sweep_expired_pending
    rw [List.mem_filter]
    simp [hmem]
  exact ⟨by rw [hin]; push_neg; rfl, hin⟩

/-- Witness for C8: a pending entry stamped at 5 with timeout 3 is swept
at `now = 8` and kept at `now = 7`. -/
theorem c8_sweep_releases_exactly_on_timeout_witness :
    ((0, (5 : ℚ)) ∈ ([(0, (5 : ℚ))] : List (Nat × ℚ))) ∧
    ((0, (5 : ℚ)) ∉ sweep_expired_pending 8 3 [(0, (5 : ℚ))] ↔ (5 : ℚ) + 3 ≤ 8) ∧
    ((0, (5 : ℚ)) ∈ sweep_expired_pending 7 3 [(0, (5 : ℚ))] ↔ (7 : ℚ) < 5 + 3) :=
  ⟨List.mem_singleton.mpr rfl,
   (c8_sweep_releases_exactly_on_timeout 8 3 [(0, 5)] 0 5
     (List.mem_singleton.mpr rfl)).1,
   (c8_sweep_releases_exactly_on_timeout 7 3 [(0, 5)] 0 5
     (List.mem_singleton.mpr rfl)).2⟩

/-- The placement tail leaves the pending flag of the processed index
clear and every other flag as it was in `s1`. -/
theorem place_finish_pending (wsPlace apiPlace : Nat → Option Order) (s1 : BotState)
    (i : Nat) (lp : ℚ) (ot : Side) (pr : ℚ × ℚ) (amt : ℚ) (j : Nat) :
    ((place_finish wsPlace apiPlace s1 i lp ot pr amt).1).pending_flags j
      = if j = i then false else s1.pending_flags j := by
  unfold place_finish
  cases (wsPlace i).orElse fun _ => apiPlace i <;> simp [setPending]

/-- One `place_new_orders` iteration returns every pending flag to its
entry value. -/
theorem place_step_pending (fee_rate : ℚ) (fixed_usdt : Option ℚ)
    (wsPlace apiPlace : Nat → Option Order)
    (calculate_prices : ℚ → Side → Nat → ℚ × ℚ) (market_price : Nat → ℚ)
    (s : BotState) (i j : Nat) :
    ((place_step fee_rate fixed_usdt wsPlace apiPlace calculate_prices
        market_price s i).1).pending_flags j = s.pending_flags j := by
  unfold place_step
  by_cases h1 : s.pending_flags i = true
  · rw [if_pos h1]
  · rw [if_neg h1]
    have h1f : s.pending_flags i = false := by
      cases hv : s.pending_flags i
      · rfl
      · exact absurd hv h1
    by_cases h2 : (lookupOrder s i).isSome
    · rw [if_pos h2]
    · rw [if_neg h2]
      simp only [setPending]
      cases hot : s.order_type.getD Side.buy <;>
        cases hlba : s.last_buy_amount <;>
        by_cases hji : j = i <;>
        simp [place_finish_pending, setPending, hji, h1f]

/-- The loop of `place_new_orders` preserves every pending flag. -/
theorem place_go_pending (fee_rate : ℚ) (fixed_usdt : Option ℚ)
    (wsPlace apiPlace : Nat → Option Order)
    (calculate_prices : ℚ → Side → Nat → ℚ × ℚ) (market_price : Nat → ℚ) :
    ∀ (idxs : List Nat) (s : BotState) (j : Nat),
      ((place_go fee_rate fixed_usdt wsPlace apiPlace calculate_prices
          market_price idxs s).1).pending_flags j = s.pending_flags j := by
  intro idxs
  induction idxs with
  | nil => intro s j; rfl
  | cons i rest ih =>
    intro s j
    unfold place_go
    rw [ih, place_step_pending]

/-- C10: `place_new_orders` never leaves a pending flag that it set
itself: after the call every instance's pending flag equals its value on
entry — an index skipped because its flag was already true keeps the flag,
and every processed index (skip-for-sell, placement success or placement
failure) ends with its flag `false`, the value it had on entry. -/
theorem c10_place_new_orders_pending_flags_restored :
    ∀ (fee_rate : ℚ) (fixed_usdt : Option ℚ)
      (wsPlace apiPlace : Nat → Option Order)
      (calculate_prices : ℚ → Side → Nat → ℚ × ℚ) (market_price : Nat → ℚ)
      (total_instances : Nat) (s : BotState) (j : Nat),
      ((place_new_orders fee_rate fixed_usdt wsPlace apiPlace calculate_prices
          market_price total_instances s).1).pending_flags j = s.pending_flags j := by
  intro fee fx ws api cp mp total s j
  unfold place_new_orders
  exact place_go_pending fee fx ws api cp mp (List.range total) s j

/-- Unfolding lemma: lookup on a cons cell. -/
theorem lookupL_cons (a : Nat × OrderRec) (l : List (Nat × OrderRec)) (j : Nat) :
    lookupL (a :: l) j = if a.1 = j then some a.2 else lookupL l j := by
  unfold lookupL
  rw [List.find?_cons]
  by_cases h : a.1 = j
  · simp [h]
  · have hb : (a.1 == j) = false := by simpa using h
    simp [hb, h]

/-- Unfolding lemma: erase on a cons cell. -/
theorem eraseL_cons (a : Nat × OrderRec) (l : List (Nat × OrderRec)) (i : Nat) :
    eraseL (a :: l) i = if a.1 = i then eraseL l i else a :: eraseL l i := by
  unfold eraseL
  rw [List.filter_cons]
  by_cases h : a.1 = i
  · simp [h]
  · simp [h]

/-- Erasing a key removes every entry with that key. -/
theorem lookupL_eraseL_self (l : List (Nat × OrderRec)) (i : Nat) :
    lookupL (eraseL l i) i = none := by
  induction l with
  | nil => rfl
  | cons a l ih =>
    rw [eraseL_cons]
    by_cases h : a.1 = i
    · rw [if_pos h]
      exact ih
    · rw [if_neg h, lookupL_cons, if_neg h]
      exact ih

/-- Erasing one key leaves lookups at other keys unchanged. -/
theorem lookupL_eraseL_ne (l : List (Nat × OrderRec)) (i j : Nat) (h : j ≠ i) :
    lookupL (eraseL l i) j = lookupL l j := by
  induction l with
  | nil => rfl
  | cons a l ih =>
    by_cases hai : a.1 = i
    · rw [eraseL_cons, if_pos hai, ih, lookupL_cons, if_neg (by omega)]
    · rw [eraseL_cons, if_neg hai, lookupL_cons, lookupL_cons, ih]

/-- A failed lookup means no entry carries the key. -/
theorem lookupL_eq_none (l : List (Nat × OrderRec)) (i : Nat) :
    lookupL l i = none ↔ ∀ e ∈ l, e.1 ≠ i := by
  unfold lookupL
  rw [Option.map_eq_none', List.find?_eq_none]
  constructor
  · intro h e he
    have := h e he
    simpa using this
  · intro h e he
    simpa using h e he

/-- Membership in an erased ledger. -/
theorem mem_eraseL (l : List (Nat × OrderRec)) (i : Nat) (e : Nat × OrderRec) :
    e ∈ eraseL l i ↔ e ∈ l ∧ e.1 ≠ i := by
  unfold eraseL
  rw [List.mem_filter]
  simp

/-- Recovery only ever deletes ledger entries. -/
theorem mem_recover_state_one (cancel : Nat → CancelOutcome) (i : Nat) (s : BotState)
    (e : Nat × OrderRec) (he : e ∈ (recover_state_one cancel i s).active_orders) :
    e ∈ s.active_orders := by
  unfold recover_state_one at he
  cases hl : lookupOrder s i with
  | none =>
    rw [hl] at he
    exact he
  | some rec =>
    rw [hl] at he
    cases hcan : cancel i <;> rw [hcan] at he <;> exact ((mem_eraseL _ _ _).mp he).1

/-- After recovery of an index its record is gone, whatever the cancel
outcome, and no pending flag moves. -/
theorem recover_state_one_spec (cancel : Nat → CancelOutcome) (i : Nat) (s : BotState) :
    lookupOrder (recover_state_one cancel i s) i = none
    ∧ (∀ j, (recover_state_one cancel i s).pending_flags j = s.pending_flags j)
    ∧ (∀ j, j ≠ i → lookupOrder (recover_state_one cancel i s) j = lookupOrder s j) := by
  unfold recover_state_one
  cases hl : lookupOrder s i with
  | none =>
    exact ⟨hl, fun j => rfl, fun j _ => rfl⟩
  | some rec =>
    refine ⟨?_, ?_, ?_⟩
    · cases cancel i <;> exact lookupL_eraseL_self s.active_orders i
    · intro j
      cases cancel i <;> rfl
    · intro j hj
      cases cancel i <;> exact lookupL_eraseL_ne s.active_orders i j hj

/-- The all-instances recovery sweep empties the ledger once every ledger
key is in the key snapshot, and moves no pending flag. -/
theorem recover_go_empties (cancel : Nat → CancelOutcome) :
    ∀ (ks : List Nat) (s : BotState), (∀ e ∈ s.active_orders, e.1 ∈ ks) →
      (recover_go cancel ks s).active_orders = []
      ∧ (∀ j, (recover_go cancel ks s).pending_flags j = s.pending_flags j) := by
  intro ks
  induction ks with
  | nil =>
    intro s h
    refine ⟨List.eq_nil_iff_forall_not_mem.mpr fun e he => by simpa using h e he, fun j => rfl⟩
  | cons i ks ih =>
    intro s h
    have hsub : ∀ e ∈ (recover_state_one cancel i s).active_orders, e.1 ∈ ks := by
      intro e he
      by_cases hei : e.1 = i
      · exfalso
        have hnone := (recover_state_one_spec cancel i s).1
        exact (lookupL_eq_none _ i).mp hnone e he hei
      · have he_orig := mem_recover_state_one cancel i s e he
        rcases List.mem_cons.mp (h e he_orig) with h0 | h0
        · exact absurd h0 hei
        · exact h0
    have hrec := ih (recover_state_one cancel i s) hsub
    refine ⟨hrec.1, fun j => ?_⟩
    show (recover_go cancel ks (recover_state_one cancel i s)).pending_flags j
      = s.pending_flags j
    rw [hrec.2 j, (recover_state_one_spec cancel i s).2.1 j]

/-- A concrete active buy record used by several scenarios below. -/
def c1rec : OrderRec :=
  { order_id := some 1, client_order_id := some 7, last_price := 100,
    limit_price := 105, order_type := .buy, executed_amount := none }

/-- A single active instance 0 holding `c1rec`, not pending. -/
def c1state : BotState :=
  { active_orders := [(0, c1rec)], pending_flags := fun _ => false,
    order_type := some .buy, last_buy_amount := none }

/-- The same ledger with the pending flag of instance 0 stuck true. -/
def c9state : BotState :=
  { active_orders := [(0, c1rec)], pending_flags := fun _ => true,
    order_type := some .buy, last_buy_amount := none }

/-- Counterexample to C9 as stated: recovering instance 0, whose cancel
raises, removes the record but does NOT release the pending marker — the
flag is still set afterwards, where the claim requires it released. -/
theorem c9_counterexample_pending_not_released :
    lookupOrder c9state 0 = some c1rec
    ∧ c9state.pending_flags 0 = true
    ∧ lookupOrder (recover_state_one (fun _ => .raised) 0 c9state) 0 = none
    ∧ (recover_state_one (fun _ => .raised) 0 c9state).pending_flags 0 = true := by
  refine ⟨rfl, rfl, rfl, rfl⟩

/-- C9 amended: `recover_state(index)` removes the instance's record from
the ledger whatever the cancel outcome (acknowledged, refused or raised)
and leaves other records alone; `recover_state()` with no index does so
for every instance; the pending flags are left untouched (the source never
clears `pending_flags` during recovery). -/
theorem c9_recover_state_forgets_regardless_of_cancel :
    ∀ (cancel : Nat → CancelOutcome) (i : Nat) (s : BotState),
      lookupOrder (recover_state_one cancel i s) i = none
      ∧ (∀ j, j ≠ i → lookupOrder (recover_state_one cancel i s) j = lookupOrder s j)
      ∧ (∀ j, (recover_state_one cancel i s).pending_flags j = s.pending_flags j)
      ∧ (recover_state_all cancel s).active_orders = []
      ∧ (∀ j, (recover_state_all cancel s).pending_flags j = s.pending_flags j) := by
  intro cancel i s
  have h1 := recover_state_one_spec cancel i s
  have h2 := recover_go_empties cancel (s.active_orders.map Prod.fst) s
    (fun e he => List.mem_map.mpr ⟨e, he, rfl⟩)
  exact ⟨h1.1, h1.2.2, h1.2.1, h2.1, h2.2⟩

/-- Price policy stub for concrete runs: trigger and limit both equal to
the input price (its exact shape is irrelevant to the properties below). -/
def sameCalc : ℚ → Side → Nat → ℚ × ℚ := fun p _ _ => (p, p)

/-- Transport oracle that acknowledges every amendment. -/
def allOkAmend : Nat → Bool := fun _ => true

/-- C1, evaluated on the code: with a single active buy instance at
reference price 100, a monitoring pass at current price 90 (the price DID
move against the order) submits NO amendment and leaves the pending flag
stuck true with the record unchanged, while a monitoring pass at current
price 110 (the price did NOT move against the order) DOES submit an
amendment recomputed at 110.  The code's own log lines announce the
opposite intent, so this contradicts both the claim and the code's stated
behaviour. -/
theorem c1_monitor_amends_exactly_when_price_did_not_move_against :
    ((monitor_active_orders allOkAmend allOkAmend sameCalc 90 c1state).2 = []
      ∧ (monitor_active_orders allOkAmend allOkAmend sameCalc 90 c1state).1.pending_flags 0
          = true
      ∧ lookupOrder (monitor_active_orders allOkAmend allOkAmend sameCalc 90 c1state).1 0
          = some c1rec)
    ∧ ((monitor_active_orders allOkAmend allOkAmend sameCalc 110 c1state).2
        = [{ index := 0, trigger := 110, limit := 110, success := true }]
      ∧ lookupOrder (monitor_active_orders allOkAmend allOkAmend sameCalc 110 c1state).1 0
          = some { c1rec with last_price := 110 }) := by
  refine ⟨⟨?_, ?_, ?_⟩, ?_, ?_⟩ <;> decide

/-- Counterexample to C2 as stated: a successful amendment of instance 0
at new price 90 recomputes the limit to 90, yet the stored `limit_price`
remains 105 — the claim requires the stored limit price to be updated on
success. -/
theorem c2_counterexample_limit_price_not_updated :
    (amend_order allOkAmend allOkAmend sameCalc 90 0 c1state).2
        = some { index := 0, trigger := 90, limit := 90, success := true }
    ∧ (lookupOrder (amend_order allOkAmend allOkAmend sameCalc 90 0 c1state).1 0).map
        OrderRec.limit_price = some 105
    ∧ (105 : ℚ) ≠ 90 := by
  refine ⟨by decide, by decide, by decide⟩

/-- Replacing the record stored for a present key makes lookups at that
key return the new record. -/
theorem lookupL_replace_self (l : List (Nat × OrderRec)) (i : Nat) (rec : OrderRec)
    (h : (lookupL l i).isSome) :
    lookupL (l.map fun e => if e.1 = i then (i, rec) else e) i = some rec := by
  induction l with
  | nil => simp [lookupL] at h
  | cons a l ih =>
    rw [List.map_cons]
    by_cases hai : a.1 = i
    · rw [if_pos hai, lookupL_cons, if_pos rfl]
    · rw [if_neg hai, lookupL_cons, if_neg hai]
      rw [lookupL_cons, if_neg hai] at h
      exact ih h

/-- Replacing the record stored for one key leaves lookups at other keys
unchanged. -/
theorem lookupL_replace_ne (l : List (Nat × OrderRec)) (i j : Nat) (rec : OrderRec)
    (h : j ≠ i) :
    lookupL (l.map fun e => if e.1 = i then (i, rec) else e) j = lookupL l j := by
  induction l with
  | nil => rfl
  | cons a l ih =>
    rw [List.map_cons]
    by_cases hai : a.1 = i
    · rw [if_pos hai, lookupL_cons, lookupL_cons]
      have h1 : ¬ ((i, rec) : Nat × OrderRec).1 = j := show ¬ i = j by omega
      have h2 : ¬ a.1 = j := by omega
      rw [if_neg h1, if_neg h2]
      exact ih
    · rw [if_neg hai, lookupL_cons, lookupL_cons]
      by_cases haj : a.1 = j
      · rw [if_pos haj, if_pos haj]
      · rw [if_neg haj, if_neg haj]
        exact ih

/-- Branch evaluation of `amend_order` when a transport path succeeds. -/
theorem amend_order_eval_success (wsAmend apiAmend : Nat → Bool)
    (cp : ℚ → Side → Nat → ℚ × ℚ) (newPrice : ℚ) (i : Nat) (s : BotState)
    (os : OrderRec) (hlook : lookupOrder s i = some os)
    (hpend : s.pending_flags i = false) (hok : (wsAmend i || apiAmend i) = true) :
    amend_order wsAmend apiAmend cp newPrice i s
      = (setPending (replaceOrder (setPending s i true) i { os with last_price := newPrice })
           i false,
         some { index := i, trigger := (cp newPrice os.order_type i).1,
                limit := (cp newPrice os.order_type i).2, success := true }) := by
  unfold amend_order
  rw [hlook]
  cases hws : wsAmend i with
  | true => simp [hpend, hws]
  | false =>
    have hapi : apiAmend i = true := by
      rw [hws] at hok
      simpa using hok
    simp [hpend, hws, hapi]

/-- Branch evaluation of `amend_order` when both transport paths fail. -/
theorem amend_order_eval_failure (wsAmend apiAmend : Nat → Bool)
    (cp : ℚ → Side → Nat → ℚ × ℚ) (newPrice : ℚ) (i : Nat) (s : BotState)
    (os : OrderRec) (hlook : lookupOrder s i = some os)
    (hpend : s.pending_flags i = false) (hko : (wsAmend i || apiAmend i) = false) :
    amend_order wsAmend apiAmend cp newPrice i s
      = (setPending (setPending s i true) i false,
         some { index := i, trigger := (cp newPrice os.order_type i).1,
                limit := (cp newPrice os.order_type i).2, success := false }) := by
  unfold amend_order
  rw [hlook]
  have hws : wsAmend i = false := by
    cases hw : wsAmend i
    · rfl
    · rw [hw] at hko
      simp at hko
  have hapi : apiAmend i = false := by
    cases ha : apiAmend i
    · rfl
    · rw [ha] at hko
      simp at hko
  simp [hpend, hws, hapi]

/-- C2 amended: when instance `i` holds an active record and is not
pending, `amend_order` on success (either transport path acknowledged)
stores the new reference price into the record, leaving `limit_price` and
every other stored field unchanged (no timestamp is stored in this
revision), and releases the pending flag; on failure of both paths it
releases the pending flag and leaves the record fully unchanged; other
instances are untouched either way. -/
theorem c2_amend_updates_reference_price_only :
    ∀ (wsAmend apiAmend : Nat → Bool) (cp : ℚ → Side → Nat → ℚ × ℚ)
      (newPrice : ℚ) (i : Nat) (s : BotState) (os : OrderRec),
      lookupOrder s i = some os → s.pending_flags i = false →
      (((wsAmend i || apiAmend i) = true →
          lookupOrder (amend_order wsAmend apiAmend cp newPrice i s).1 i
            = some { os with last_price := newPrice })
      ∧ ((wsAmend i || apiAmend i) = false →
          lookupOrder (amend_order wsAmend apiAmend cp newPrice i s).1 i = some os)
      ∧ (amend_order wsAmend apiAmend cp newPrice i s).1.pending_flags i = false
      ∧ (∀ j, j ≠ i →
          lookupOrder (amend_order wsAmend apiAmend cp newPrice i s).1 j = lookupOrder s j
          ∧ (amend_order wsAmend apiAmend cp newPrice i s).1.pending_flags j
              = s.pending_flags j)) := by
  intro wsA apiA cp newPrice i s os hlook hpend
  have hsome : (lookupL s.active_orders i).isSome := by
    unfold lookupOrder at hlook
    rw [hlook]
    rfl
  cases hok : (wsA i || apiA i) with
  | true =>
    have hred := amend_order_eval_success wsA apiA cp newPrice i s os hlook hpend hok
    rw [hred]
    refine ⟨fun _ => ?_, fun hff => Bool.noConfusion hff, by simp [setPending], ?_⟩
    · exact lookupL_replace_self s.active_orders i _ hsome
    · intro j hj
      refine ⟨lookupL_replace_ne s.active_orders i j _ hj, ?_⟩
      simp [setPending, replaceOrder, hj]
  | false =>
    have hred := amend_order_eval_failure wsA apiA cp newPrice i s os hlook hpend hok
    rw [hred]
    refine ⟨fun htt => Bool.noConfusion htt, fun _ => hlook, by simp [setPending], ?_⟩
    intro j hj
    exact ⟨rfl, by simp [setPending, hj]⟩

/-- Witness for the amended C2 at the concrete buy instance. -/
theorem c2_amend_updates_reference_price_only_witness :
    lookupOrder c1state 0 = some c1rec ∧ c1state.pending_flags 0 = false ∧
    (((allOkAmend 0 || allOkAmend 0) = true →
        lookupOrder (amend_order allOkAmend allOkAmend sameCalc 90 0 c1state).1 0
          = some { c1rec with last_price := 90 })
    ∧ ((allOkAmend 0 || allOkAmend 0) = false →
        lookupOrder (amend_order allOkAmend allOkAmend sameCalc 90 0 c1state).1 0
          = some c1rec)
    ∧ (amend_order allOkAmend allOkAmend sameCalc 90 0 c1state).1.pending_flags 0 = false
    ∧ (∀ j, j ≠ 0 →
        lookupOrder (amend_order allOkAmend allOkAmend sameCalc 90 0 c1state).1 j
            = lookupOrder c1state j
        ∧ (amend_order allOkAmend allOkAmend sameCalc 90 0 c1state).1.pending_flags j
            = c1state.pending_flags j)) :=
  ⟨rfl, rfl,
   c2_amend_updates_reference_price_only allOkAmend allOkAmend sameCalc 90 0 c1state c1rec
     rfl rfl⟩

/-- Scenario C rounding: the raw fee 0.000802 rounds up to one
significant digit as 0.0009. -/
theorem round_up_scenarioC :
    round_up_to_one_significant ((802 : ℚ) / 1000000) = 9 / 10000 := by
  have hpos : (0 : ℚ) < 802 / 1000000 := by norm_num
  have hlog : Int.log 10 ((802 : ℚ) / 1000000) = -4 := by
    have hb : 1 < (10 : ℕ) := by norm_num
    have h1 : ((10 : ℕ) : ℚ) ^ (-4 : ℤ) ≤ 802 / 1000000 := by norm_num
    have h2 : ((802 : ℚ) / 1000000) < ((10 : ℕ) : ℚ) ^ (-3 : ℤ) := by norm_num
    have hle := (Int.zpow_le_iff_le_log hb hpos).mp h1
    have hlt := (Int.lt_zpow_iff_log_lt hb hpos).mp h2
    omega
  have habs : |(802 : ℚ) / 1000000| = 802 / 1000000 := abs_of_pos hpos
  have hfac : (10 : ℚ) ^ (-4 : ℤ) = 1 / 10000 := by norm_num
  have hfloor : ⌊(802 : ℚ) / 1000000 / (10 : ℚ) ^ (-4 : ℤ)⌋ = 8 := by
    rw [hfac, show (802 : ℚ) / 1000000 / (1 / 10000) = 401 / 50 by norm_num,
      Int.floor_eq_iff]
    constructor
    · norm_num
    · norm_num
  unfold round_up_to_one_significant
  rw [if_neg (by norm_num : ¬(802 : ℚ) / 1000000 = 0), habs, hlog, hfloor]
  rw [if_pos (by rw [hfac]; norm_num : ((8 : ℤ) : ℚ) * (10 : ℚ) ^ (-4 : ℤ) < (802 : ℚ) / 1000000)]
  rw [if_neg (by norm_num : ¬(8 : ℤ) + 1 = 10), hfac]
  norm_num

/-- Either placement path preserves the global order type and the carried
buy amount. -/
theorem place_finish_preserves (wsPlace apiPlace : Nat → Option Order) (s1 : BotState)
    (i : Nat) (lp : ℚ) (ot : Side) (pr : ℚ × ℚ) (amt : ℚ) :
    ((place_finish wsPlace apiPlace s1 i lp ot pr amt).1).order_type = s1.order_type
    ∧ ((place_finish wsPlace apiPlace s1 i lp ot pr amt).1).last_buy_amount
        = s1.last_buy_amount := by
  unfold place_finish
  cases (wsPlace i).orElse fun _ => apiPlace i <;> exact ⟨rfl, rfl⟩

/-- One placement iteration preserves the global order type and the
carried buy amount. -/
theorem place_step_preserves (fee_rate : ℚ) (fixed_usdt : Option ℚ)
    (wsPlace apiPlace : Nat → Option Order) (cp : ℚ → Side → Nat → ℚ × ℚ)
    (mp : Nat → ℚ) (s : BotState) (i : Nat) :
    ((place_step fee_rate fixed_usdt wsPlace apiPlace cp mp s i).1).order_type = s.order_type
    ∧ ((place_step fee_rate fixed_usdt wsPlace apiPlace cp mp s i).1).last_buy_amount
        = s.last_buy_amount := by
  unfold place_step
  by_cases hp : s.pending_flags i = true
  · rw [if_pos hp]
    exact ⟨rfl, rfl⟩
  · rw [if_neg hp]
    by_cases ha : (lookupOrder s i).isSome = true
    · rw [if_pos ha]
      exact ⟨rfl, rfl⟩
    · rw [if_neg ha]
      dsimp only
      cases hot : (setPending s i true).order_type.getD Side.buy with
      | sell =>
        cases hlba : (setPending s i true).last_buy_amount with
        | none => exact ⟨rfl, rfl⟩
        | some lba =>
          exact ⟨(place_finish_preserves _ _ _ _ _ _ _ _).1,
                 (place_finish_preserves _ _ _ _ _ _ _ _).2⟩
      | buy =>
        exact ⟨(place_finish_preserves _ _ _ _ _ _ _ _).1,
               (place_finish_preserves _ _ _ _ _ _ _ _).2⟩

/-- Every event the placement tail emits carries the amount it was
given. -/
theorem place_finish_amount (wsPlace apiPlace : Nat → Option Order) (s1 : BotState)
    (i : Nat) (lp : ℚ) (ot : Side) (pr : ℚ × ℚ) (amt : ℚ) :
    ∀ ev ∈ (place_finish wsPlace apiPlace s1 i lp ot pr amt).2.toList, ev.amount = amt := by
  intro ev hev
  unfold place_finish at hev
  cases horl : (wsPlace i).orElse fun _ => apiPlace i <;> rw [horl] at hev <;>
    simp at hev <;> rw [hev]

/-- In a sell configuration with carry `c`, every submission event of one
placement iteration carries the fee-adjusted amount. -/
theorem place_step_sell_amounts (fee_rate : ℚ) (fixed_usdt : Option ℚ)
    (wsPlace apiPlace : Nat → Option Order) (cp : ℚ → Side → Nat → ℚ × ℚ)
    (mp : Nat → ℚ) (s : BotState) (i : Nat) (c : ℚ)
    (hot : s.order_type = some .sell) (hlba : s.last_buy_amount = some c) :
    ∀ ev ∈ (place_step fee_rate fixed_usdt wsPlace apiPlace cp mp s i).2.toList,
      ev.amount = sell_amount c fee_rate := by
  intro ev hev
  unfold place_step at hev
  by_cases hp : s.pending_flags i = true
  · rw [if_pos hp] at hev
    simp at hev
  · rw [if_neg hp] at hev
    by_cases ha : (lookupOrder s i).isSome = true
    · rw [if_pos ha] at hev
      simp at hev
    · rw [if_neg ha] at hev
      dsimp only at hev
      have hot' : (setPending s i true).order_type.getD Side.buy = Side.sell := by
        show s.order_type.getD Side.buy = Side.sell
        rw [hot]
        rfl
      have hlba' : (setPending s i true).last_buy_amount = some c := hlba
      rw [hot', hlba'] at hev
      exact place_finish_amount _ _ _ _ _ _ _ _ ev hev

/-- In a sell configuration with carry `c`, every submission event of the
whole placement loop carries the fee-adjusted amount. -/
theorem place_go_sell_amounts (fee_rate : ℚ) (fixed_usdt : Option ℚ)
    (wsPlace apiPlace : Nat → Option Order) (cp : ℚ → Side → Nat → ℚ × ℚ)
    (mp : Nat → ℚ) (c : ℚ) :
    ∀ (idxs : List Nat) (s : BotState),
      s.order_type = some .sell → s.last_buy_amount = some c →
      ∀ ev ∈ (place_go fee_rate fixed_usdt wsPlace apiPlace cp mp idxs s).2,
        ev.amount = sell_amount c fee_rate := by
  intro idxs
  induction idxs with
  | nil =>
    intro s _ _ ev hev
    simp [place_go] at hev
  | cons i rest ih =>
    intro s hot hlba ev hev
    unfold place_go at hev
    rw [List.mem_append] at hev
    rcases hev with hev | hev
    · exact place_step_sell_amounts fee_rate fixed_usdt wsPlace apiPlace cp mp s i c
        hot hlba ev hev
    · have hpres := place_step_preserves fee_rate fixed_usdt wsPlace apiPlace cp mp s i
      exact ih (place_step fee_rate fixed_usdt wsPlace apiPlace cp mp s i).1
        (hpres.1.trans hot) (hpres.2.trans hlba) ev hev

/-- C5: the sell quantity submitted by `place_new_orders` equals
`carry - round_up_to_one_significant (carry * feeRate)`, and Scenario C
(carry 0.0802, fee rate 0.01) yields raw fee 0.000802, rounded fee 0.0009
and sell amount 0.0793. -/
theorem c5_sell_quantity_formula_and_scenarioC :
    ((802 / 10000 : ℚ) * (1 / 100) = 802 / 1000000
      ∧ round_up_to_one_significant ((802 / 10000 : ℚ) * (1 / 100)) = 9 / 10000
      ∧ sell_amount (802 / 10000) (1 / 100) = 793 / 10000)
    ∧ (∀ (fee_rate : ℚ) (fixed_usdt : Option ℚ)
        (wsPlace apiPlace : Nat → Option Order) (cp : ℚ → Side → Nat → ℚ × ℚ)
        (mp : Nat → ℚ) (total : Nat) (s : BotState) (c : ℚ),
        s.order_type = some .sell → s.last_buy_amount = some c →
        ∀ ev ∈ (place_new_orders fee_rate fixed_usdt wsPlace apiPlace cp mp total s).2,
          ev.amount = c - round_up_to_one_significant (c * fee_rate)) := by
  have harg : (802 / 10000 : ℚ) * (1 / 100) = 802 / 1000000 := by norm_num
  refine ⟨⟨harg, ?_, ?_⟩, ?_⟩
  · rw [harg, round_up_scenarioC]
  · unfold sell_amount
    rw [harg, round_up_scenarioC]
    norm_num
  · intro fee fx ws api cp mp total s c hot hlba ev hev
    have := place_go_sell_amounts fee fx ws api cp mp c (List.range total) s hot hlba ev hev
    unfold sell_amount at this
    exact this

/-- A sell-side state carrying the Scenario C executed buy amount. -/
def c5state : BotState :=
  { active_orders := [], pending_flags := fun _ => false,
    order_type := some .sell, last_buy_amount := some (802 / 10000) }

/-- Witness for C5 on the Scenario C state. -/
theorem c5_sell_quantity_formula_and_scenarioC_witness :
    c5state.order_type = some .sell ∧ c5state.last_buy_amount = some (802 / 10000)
    ∧ (∀ ev ∈ (place_new_orders (1 / 100) none (fun _ => none) (fun _ => none) sameCalc
          (fun _ => 100) 1 c5state).2,
        ev.amount = (802 / 10000 : ℚ)
          - round_up_to_one_significant ((802 / 10000) * (1 / 100))) :=
  ⟨rfl, rfl,
   c5_sell_quantity_formula_and_scenarioC.2 (1 / 100) none (fun _ => none) (fun _ => none)
     sameCalc (fun _ => 100) 1 c5state (802 / 10000) rfl rfl⟩

/-- Membership is preserved by the sorted insertion. -/
theorem mem_insertByLimit (a b : Nat × OrderRec) :
    ∀ l : List (Nat × OrderRec), b ∈ insertByLimit a l ↔ b = a ∨ b ∈ l := by
  intro l
  induction l with
  | nil => simp [insertByLimit]
  | cons c l ih =>
    unfold insertByLimit
    by_cases h : c.2.limit_price < a.2.limit_price
    · rw [if_pos h]
      rw [List.mem_cons, ih, List.mem_cons]
      tauto
    · rw [if_neg h]
      simp

/-- Sorted insertion keeps the list sorted ascending by limit price. -/
theorem sorted_insertByLimit (a : Nat × OrderRec) :
    ∀ l : List (Nat × OrderRec),
      l.Pairwise (fun x y => x.2.limit_price ≤ y.2.limit_price) →
      (insertByLimit a l).Pairwise (fun x y => x.2.limit_price ≤ y.2.limit_price) := by
  intro l
  induction l with
  | nil =>
    intro _
    simp [insertByLimit]
  | cons c l ih =>
    intro h
    rcases List.pairwise_cons.mp h with ⟨hc, hl⟩
    unfold insertByLimit
    by_cases hlt : c.2.limit_price < a.2.limit_price
    · rw [if_pos hlt]
      refine List.pairwise_cons.mpr ⟨?_, ih hl⟩
      intro b hb
      rcases (mem_insertByLimit a b l).mp hb with rfl | hbl
      · exact hlt.le
      · exact hc b hbl
    · rw [if_neg hlt]
      refine List.pairwise_cons.mpr ⟨?_, h⟩
      intro b hb
      rcases List.mem_cons.mp hb with rfl | hb
      · exact le_of_not_lt hlt
      · exact le_trans (le_of_not_lt hlt) (hc b hb)

/-- The shutdown sell sort is ascending by limit price. -/
theorem sorted_sortByLimit :
    ∀ l : List (Nat × OrderRec),
      (sortByLimit l).Pairwise (fun x y => x.2.limit_price ≤ y.2.limit_price) := by
  intro l
  induction l with
  | nil => simp [sortByLimit]
  | cons a l ih => exact sorted_insertByLimit a (sortByLimit l) ih

/-- The shutdown sell sort neither adds nor drops entries. -/
theorem mem_sortByLimit (a : Nat × OrderRec) :
    ∀ l : List (Nat × OrderRec), a ∈ sortByLimit l ↔ a ∈ l := by
  intro l
  induction l with
  | nil => simp [sortByLimit]
  | cons b l ih =>
    unfold sortByLimit
    rw [mem_insertByLimit, ih, List.mem_cons]

/-- Erasing a key absent from a ledger does nothing. -/
theorem eraseL_notmem (l : List (Nat × OrderRec)) (i : Nat)
    (h : i ∉ l.map Prod.fst) : eraseL l i = l := by
  induction l with
  | nil => rfl
  | cons a l ih =>
    rw [List.map_cons] at h
    rw [eraseL_cons, if_neg (fun hc => h (List.mem_cons.mpr (Or.inl hc.symm)))]
    rw [ih fun hc => h (List.mem_cons.mpr (Or.inr hc))]

/-- Phase 1 passes over a leading entry whose key is not in the snapshot. -/
theorem phase1L_skip_head (i : Nat) (rec : OrderRec) :
    ∀ (ks : List Nat) (l : List (Nat × OrderRec)), i ∉ ks →
      phase1L ks ((i, rec) :: l)
        = ((i, rec) :: (phase1L ks l).1, (phase1L ks l).2) := by
  intro ks
  induction ks with
  | nil => intro l _; rfl
  | cons k ks ih =>
    intro l hk
    have hki : ¬(k = i) := fun hc => hk (List.mem_cons.mpr (Or.inl hc.symm))
    have hk' : i ∉ ks := fun hc => hk (List.mem_cons.mpr (Or.inr hc))
    have hik : ¬((i, rec) : Nat × OrderRec).1 = k := show ¬i = k from fun hc => hki hc.symm
    show (match lookupL ((i, rec) :: l) k with
      | some r =>
        if r.order_type = Side.buy then
          ((phase1L ks (eraseL ((i, rec) :: l) k)).1,
            ShutEvent.cancelBuy k :: (phase1L ks (eraseL ((i, rec) :: l) k)).2)
        else phase1L ks ((i, rec) :: l)
      | none => phase1L ks ((i, rec) :: l)) = _
    rw [lookupL_cons, if_neg hik, eraseL_cons, if_neg hik]
    cases hlk : lookupL l k with
    | none =>
      have hred : phase1L (k :: ks) l = phase1L ks l := by
        show (match lookupL l k with
          | some r =>
            if r.order_type = Side.buy then
              ((phase1L ks (eraseL l k)).1,
                ShutEvent.cancelBuy k :: (phase1L ks (eraseL l k)).2)
            else phase1L ks l
          | none => phase1L ks l) = _
        rw [hlk]
      rw [hred, ih l hk']
    | some r =>
      show (if r.order_type = Side.buy then
          ((phase1L ks ((i, rec) :: eraseL l k)).1,
            ShutEvent.cancelBuy k :: (phase1L ks ((i, rec) :: eraseL l k)).2)
        else phase1L ks ((i, rec) :: l))
        = ((i, rec) :: (phase1L (k :: ks) l).1, (phase1L (k :: ks) l).2)
      by_cases hb : r.order_type = Side.buy
      · have hred : phase1L (k :: ks) l
            = ((phase1L ks (eraseL l k)).1,
               ShutEvent.cancelBuy k :: (phase1L ks (eraseL l k)).2) := by
          show (match lookupL l k with
            | some r =>
              if r.order_type = Side.buy then
                ((phase1L ks (eraseL l k)).1,
                  ShutEvent.cancelBuy k :: (phase1L ks (eraseL l k)).2)
              else phase1L ks l
            | none => phase1L ks l) = _
          rw [hlk]
          show (if r.order_type = Side.buy then
              ((phase1L ks (eraseL l k)).1,
                ShutEvent.cancelBuy k :: (phase1L ks (eraseL l k)).2)
            else phase1L ks l) = _
          rw [if_pos hb]
        rw [if_pos hb, hred, ih (eraseL l k) hk']
      · have hred : phase1L (k :: ks) l = phase1L ks l := by
          show (match lookupL l k with
            | some r =>
              if r.order_type = Side.buy then
                ((phase1L ks (eraseL l k)).1,
                  ShutEvent.cancelBuy k :: (phase1L ks (eraseL l k)).2)
              else phase1L ks l
            | none => phase1L ks l) = _
          rw [hlk]
          show (if r.order_type = Side.buy then
              ((phase1L ks (eraseL l k)).1,
                ShutEvent.cancelBuy k :: (phase1L ks (eraseL l k)).2)
            else phase1L ks l) = _
          rw [if_neg hb]
        rw [if_neg hb, hred, ih l hk']

/-- Characterization of phase 1 over a duplicate-free ledger: the buys are
cancelled (one event each, in ledger order) and removed, the sells stay. -/
theorem phase1L_spec :
    ∀ l : List (Nat × OrderRec), (l.map Prod.fst).Nodup →
      phase1L (l.map Prod.fst) l
        = (l.filter (fun e => e.2.order_type == Side.sell),
           (l.filter fun e => e.2.order_type == Side.buy).map
             fun e => ShutEvent.cancelBuy e.1) := by
  intro l
  induction l with
  | nil => intro _; rfl
  | cons a l ih =>
    intro hnd
    obtain ⟨i, rec⟩ := a
    rw [List.map_cons] at hnd ⊢
    have hni : i ∉ l.map Prod.fst := (List.nodup_cons.mp hnd).1
    have hnd' := (List.nodup_cons.mp hnd).2
    show (match lookupL ((i, rec) :: l) i with
      | some r =>
        if r.order_type = Side.buy then
          ((phase1L (l.map Prod.fst) (eraseL ((i, rec) :: l) i)).1,
            ShutEvent.cancelBuy i :: (phase1L (l.map Prod.fst) (eraseL ((i, rec) :: l) i)).2)
        else phase1L (l.map Prod.fst) ((i, rec) :: l)
      | none => phase1L (l.map Prod.fst) ((i, rec) :: l)) = _
    rw [lookupL_cons, if_pos rfl]
    show (if rec.order_type = Side.buy then
        ((phase1L (l.map Prod.fst) (eraseL ((i, rec) :: l) i)).1,
          ShutEvent.cancelBuy i :: (phase1L (l.map Prod.fst) (eraseL ((i, rec) :: l) i)).2)
      else phase1L (l.map Prod.fst) ((i, rec) :: l)) = _
    cases hrec : rec.order_type with
    | buy =>
      rw [if_pos rfl, eraseL_cons, if_pos rfl, eraseL_notmem l i hni, ih hnd']
      simp [List.filter_cons, hrec]
    | sell =>
      rw [if_neg (by decide), phase1L_skip_head i rec (l.map Prod.fst) l hni, ih hnd']
      simp [List.filter_cons, hrec]

/-- Extracts the limit price of a sell-cancel event. -/
def sellCancelLimit : ShutEvent → Option ℚ
  | .sellCancel _ lim _ => some lim
  | _ => none

/-- Evaluation of one phase-2 iteration. -/
theorem phase2L_cons (cancel : Nat → CancelOutcome) (market : Nat → Bool)
    (i : Nat) (rec : OrderRec) (ps l : List (Nat × OrderRec)) :
    phase2L cancel market ((i, rec) :: ps) l
      = ((phase2L cancel market ps (eraseL l i)).1,
         (if cancel i = .ok then
            ShutEvent.sellCancel i rec.limit_price true ::
              (match rec.executed_amount with
               | some a => if 0 < a then [ShutEvent.marketSell i a (market i)] else []
               | none => [])
          else [ShutEvent.sellCancel i rec.limit_price false])
          ++ (phase2L cancel market ps (eraseL l i)).2) := rfl

/-- The sell-cancel events of phase 2 carry exactly the limit prices of
the processed list, in processing order. -/
theorem phase2L_limits (cancel : Nat → CancelOutcome) (market : Nat → Bool) :
    ∀ (ps l : List (Nat × OrderRec)),
      ((phase2L cancel market ps l).2).filterMap sellCancelLimit
        = ps.map fun p => p.2.limit_price := by
  intro ps
  induction ps with
  | nil => intro l; rfl
  | cons p ps ih =>
    intro l
    obtain ⟨i, rec⟩ := p
    rw [phase2L_cons, List.map_cons, List.filterMap_append, ih]
    by_cases hc : cancel i = CancelOutcome.ok
    · rcases hra : rec.executed_amount with _ | a
      · simp [hc, hra, sellCancelLimit]
      · by_cases ha : 0 < a
        · simp [hc, hra, ha, sellCancelLimit]
        · simp [hc, hra, ha, sellCancelLimit]
    · simp [hc, sellCancelLimit]

/-- Phase 2 emits no buy-cancel events. -/
theorem phase2L_no_cancelBuy (cancel : Nat → CancelOutcome) (market : Nat → Bool) :
    ∀ (ps l : List (Nat × OrderRec)) (j : Nat),
      ShutEvent.cancelBuy j ∉ (phase2L cancel market ps l).2 := by
  intro ps
  induction ps with
  | nil =>
    intro l j h
    simp [phase2L] at h
  | cons p ps ih =>
    intro l j h
    obtain ⟨i, rec⟩ := p
    rw [phase2L_cons, List.mem_append] at h
    rcases h with h | h
    · by_cases hc : cancel i = CancelOutcome.ok
      · rw [if_pos hc] at h
        rcases hra : rec.executed_amount with _ | a
        · rw [hra] at h
          simp at h
        · rw [hra] at h
          by_cases ha : 0 < a
          · simp [ha] at h
          · simp [ha] at h
      · rw [if_neg hc] at h
        simp at h
    · exact ih (eraseL l i) j h

/-- A market-sell event appears in phase 2 exactly for a processed sell
whose cancel was acknowledged and whose stored executed amount is a
positive quantity. -/
theorem phase2L_marketSell_mem (cancel : Nat → CancelOutcome) (market : Nat → Bool) :
    ∀ (ps l : List (Nat × OrderRec)) (i : Nat) (a : ℚ) (b : Bool),
      ShutEvent.marketSell i a b ∈ (phase2L cancel market ps l).2
        ↔ ∃ rec, (i, rec) ∈ ps ∧ rec.executed_amount = some a ∧ 0 < a
            ∧ cancel i = CancelOutcome.ok ∧ b = market i := by
  intro ps
  induction ps with
  | nil =>
    intro l i a b
    constructor
    · intro h
      simp [phase2L] at h
    · rintro ⟨rec, hmem, -⟩
      simp at hmem
  | cons p ps ih =>
    intro l i a b
    obtain ⟨i0, rec0⟩ := p
    rw [phase2L_cons, List.mem_append]
    constructor
    · intro h
      rcases h with h | h
      · by_cases hc : cancel i0 = CancelOutcome.ok
        · rw [if_pos hc] at h
          rcases hra : rec0.executed_amount with _ | a0
          · rw [hra] at h
            simp at h
          · rw [hra] at h
            by_cases ha : 0 < a0
            · simp [ha] at h
              obtain ⟨h1, h2, h3⟩ := h
              subst h1
              subst h2
              exact ⟨rec0, List.mem_cons.mpr (Or.inl rfl), hra, ha, hc, h3⟩
            · simp [ha] at h
        · rw [if_neg hc] at h
          simp at h
      · rcases (ih (eraseL l i0) i a b).mp h with ⟨rec, hmem, hrest⟩
        exact ⟨rec, List.mem_cons.mpr (Or.inr hmem), hrest⟩
    · rintro ⟨rec, hmem, hex, hpos, hok, hb⟩
      rcases List.mem_cons.mp hmem with heq | hmem
      · injection heq with hi hrec
        subst hi
        subst hrec
        left
        simp [hok, hex, hpos, hb]
      · right
        exact (ih (eraseL l i0) i a b).mpr ⟨rec, hmem, hex, hpos, hok, hb⟩

/-- Phase 2 deletes every ledger entry whose key it processes. -/
theorem phase2L_fst_nil (cancel : Nat → CancelOutcome) (market : Nat → Bool) :
    ∀ (ps l : List (Nat × OrderRec)), (∀ e ∈ l, e.1 ∈ ps.map Prod.fst) →
      (phase2L cancel market ps l).1 = [] := by
  intro ps
  induction ps with
  | nil =>
    intro l h
    have hnil : l = [] := List.eq_nil_iff_forall_not_mem.mpr fun e he => by simpa using h e he
    rw [hnil]
    rfl
  | cons p ps ih =>
    intro l h
    obtain ⟨i0, rec0⟩ := p
    rw [phase2L_cons]
    apply ih
    intro e he
    rcases (mem_eraseL l i0 e).mp he with ⟨hel, hne⟩
    rcases List.mem_cons.mp (h e hel) with h0 | h0
    · exact absurd h0 hne
    · exact h0

/-- Buy-cancel events never reach the sell-limit extraction. -/
theorem filterMap_sellCancelLimit_cancelBuys (xs : List (Nat × OrderRec)) :
    (xs.map fun e => ShutEvent.cancelBuy e.1).filterMap sellCancelLimit = [] := by
  induction xs with
  | nil => rfl
  | cons x xs ih => simp [sellCancelLimit, ih]

/-- Evaluation of `graceful_shutdown` into its two phases. -/
theorem graceful_shutdown_eval (cancel : Nat → CancelOutcome) (market : Nat → Bool)
    (s : BotState) :
    graceful_shutdown cancel market s
      = ({ s with active_orders :=
            (phase2L cancel market
              (sortByLimit
                ((phase1L (s.active_orders.map Prod.fst) s.active_orders).1.filter
                  fun e => e.2.order_type == Side.sell))
              (phase1L (s.active_orders.map Prod.fst) s.active_orders).1).1 },
         (phase1L (s.active_orders.map Prod.fst) s.active_orders).2
           ++ (phase2L cancel market
              (sortByLimit
                ((phase1L (s.active_orders.map Prod.fst) s.active_orders).1.filter
                  fun e => e.2.order_type == Side.sell))
              (phase1L (s.active_orders.map Prod.fst) s.active_orders).1).2) := rfl

/-- Three active sell instances whose stored limit prices are 105, 101
and 103 in ledger order. -/
def mkSellRec (oid : Nat) (lim : ℚ) (ex : Option ℚ) : OrderRec :=
  { order_id := some oid, client_order_id := none, last_price := lim,
    limit_price := lim, order_type := .sell, executed_amount := ex }

/-- The P4 scenario ledger: sell limits `[105, 101, 103]`. -/
def c3demo : BotState :=
  { active_orders :=
      [(0, mkSellRec 20 105 (some 2)), (1, mkSellRec 21 101 (some 3)),
       (2, mkSellRec 22 103 none)],
    pending_flags := fun _ => false, order_type := some .sell,
    last_buy_amount := none }

/-- C3 amended: `graceful_shutdown` first cancels every active buy (phase
1 events all are buy cancels and every active buy gets one), then
processes the active sells in ascending order of stored limit price (the
sell-cancel events' limits are sorted; on the P4 ledger `[105, 101, 103]`
the processing order is `[101, 103, 105]`); a market sell for the stored
`executed_amount` is submitted exactly when that amount is present and
positive AND the sell's cancel was acknowledged; every processed instance
is removed from the ledger whether or not its individual step
succeeded — the ledger is empty afterwards. -/
theorem c3_graceful_shutdown_ordering_and_removal :
    (∀ (cancel : Nat → CancelOutcome) (market : Nat → Bool) (s : BotState),
      (s.active_orders.map Prod.fst).Nodup →
      ((∀ i rec, (i, rec) ∈ s.active_orders → rec.order_type = .buy →
          ShutEvent.cancelBuy i ∈ (graceful_shutdown cancel market s).2)
      ∧ (∃ l1 l2, (graceful_shutdown cancel market s).2 = l1 ++ l2
          ∧ (∀ e ∈ l1, ∃ i, e = ShutEvent.cancelBuy i)
          ∧ (∀ e ∈ l2, ∀ i, e ≠ ShutEvent.cancelBuy i))
      ∧ List.Pairwise (fun x y => x ≤ y)
          (((graceful_shutdown cancel market s).2).filterMap sellCancelLimit)
      ∧ (∀ i a b, ShutEvent.marketSell i a b ∈ (graceful_shutdown cancel market s).2 →
          cancel i = CancelOutcome.ok ∧ 0 < a
          ∧ ∃ rec, (i, rec) ∈ s.active_orders ∧ rec.order_type = .sell
              ∧ rec.executed_amount = some a)
      ∧ (∀ i rec a, (i, rec) ∈ s.active_orders → rec.order_type = .sell →
          cancel i = CancelOutcome.ok → rec.executed_amount = some a → 0 < a →
          ShutEvent.marketSell i a (market i) ∈ (graceful_shutdown cancel market s).2)
      ∧ (graceful_shutdown cancel market s).1.active_orders = []))
    ∧ ((graceful_shutdown (fun _ => .ok) (fun _ => true) c3demo).2.filterMap sellCancelLimit
        = [101, 103, 105]) := by
  constructor
  · intro cancel market s hnd
    have hp1 := phase1L_spec s.active_orders hnd
    rw [graceful_shutdown_eval, hp1]
    set sells1 := s.active_orders.filter (fun e => e.2.order_type == Side.sell) with hs1
    set buyEvs := (s.active_orders.filter fun e => e.2.order_type == Side.buy).map
      (fun e => ShutEvent.cancelBuy e.1) with hbe
    have hss : sells1.filter (fun e => e.2.order_type == Side.sell) = sells1 :=
      List.filter_eq_self.mpr fun e he => (List.mem_filter.mp he).2
    rw [hss]
    set sorted := sortByLimit sells1 with hsorted
    have hmem_sorted : ∀ e, e ∈ sorted ↔ e ∈ sells1 := fun e => mem_sortByLimit e sells1
    refine ⟨?_, ?_, ?_, ?_, ?_, ?_⟩
    · intro i rec hmem hbuy
      refine List.mem_append.mpr (Or.inl ?_)
      exact List.mem_map.mpr
        ⟨(i, rec), List.mem_filter.mpr ⟨hmem, by simp [hbuy]⟩, rfl⟩
    · refine ⟨buyEvs, (phase2L cancel market sorted sells1).2, rfl, ?_, ?_⟩
      · intro e he
        rcases List.mem_map.mp he with ⟨p, _, hp⟩
        exact ⟨p.1, hp.symm⟩
      · intro e he i hc
        rw [hc] at he
        exact phase2L_no_cancelBuy cancel market sorted sells1 i he
    · rw [List.filterMap_append, filterMap_sellCancelLimit_cancelBuys,
        phase2L_limits cancel market sorted sells1, List.nil_append]
      exact List.pairwise_map.mpr (sorted_sortByLimit sells1)
    · intro i a b hmem
      rcases List.mem_append.mp hmem with h | h
      · rcases List.mem_map.mp h with ⟨p, _, hp⟩
        exact absurd hp.symm (fun hc => ShutEvent.noConfusion hc)
      · rcases (phase2L_marketSell_mem cancel market sorted sells1 i a b).mp h with
          ⟨rec, hrec, hex, hpos, hok, hb⟩
        have hrec1 : (i, rec) ∈ sells1 := (hmem_sorted (i, rec)).mp hrec
        rcases List.mem_filter.mp hrec1 with ⟨horig, hsell⟩
        refine ⟨hok, hpos, rec, horig, ?_, hex⟩
        simpa using hsell
    · intro i rec a hmem hsell hok hex hpos
      refine List.mem_append.mpr (Or.inr ?_)
      refine (phase2L_marketSell_mem cancel market sorted sells1 i a (market i)).mpr
        ⟨rec, ?_, hex, hpos, hok, rfl⟩
      exact (hmem_sorted (i, rec)).mpr (List.mem_filter.mpr ⟨hmem, by simp [hsell]⟩)
    · show (phase2L cancel market sorted sells1).1 = []
      apply phase2L_fst_nil
      intro e he
      exact List.mem_map.mpr ⟨e, (hmem_sorted e).mpr he, rfl⟩
  · decide

/-- Witness for the amended C3 on the P4 ledger. -/
theorem c3_graceful_shutdown_ordering_and_removal_witness :
    ((c3demo.active_orders.map Prod.fst).Nodup)
    ∧ (graceful_shutdown (fun _ => .ok) (fun _ => true) c3demo).1.active_orders = [] :=
  ⟨by decide,
   (c3_graceful_shutdown_ordering_and_removal.1 (fun _ => .ok) (fun _ => true) c3demo
     (by decide)).2.2.2.2.2⟩

/-- A single active sell with a positive executed amount whose cancel is
refused. -/
def c3failstate : BotState :=
  { active_orders := [(0, mkSellRec 5 100 (some 1))],
    pending_flags := fun _ => false, order_type := some .sell,
    last_buy_amount := none }

/-- Counterexample to C3 as stated: the sell instance 0 carries
`executed_amount = 1 > 0`, yet when its cancel fails no market sell is
submitted — the shutdown emits only the failed cancel event.  The claim's
unconditional "when its executedAmount > 0, placing a market sell" is
therefore false on the code. -/
theorem c3_counterexample_market_sell_needs_cancel_ok :
    (mkSellRec 5 100 (some 1)).executed_amount = some 1 ∧ (0 : ℚ) < 1
    ∧ (graceful_shutdown (fun _ => .failed) (fun _ => true) c3failstate).2
        = [ShutEvent.sellCancel 0 100 false]
    ∧ (∀ b : Bool, ShutEvent.marketSell 0 1 b
        ∉ (graceful_shutdown (fun _ => .failed) (fun _ => true) c3failstate).2) := by
  refine ⟨rfl, by norm_num, by decide, by decide⟩

/-- Witness for the amended C9 on the stuck-pending ledger. -/
theorem c9_recover_state_forgets_regardless_of_cancel_witness :
    lookupOrder (recover_state_one (fun _ => .raised) 0 c9state) 0 = none
    ∧ (1 : Nat) ≠ 0
    ∧ lookupOrder (recover_state_one (fun _ => .raised) 0 c9state) 1 = lookupOrder c9state 1
    ∧ (recover_state_all (fun _ => .raised) c9state).active_orders = [] :=
  ⟨(c9_recover_state_forgets_regardless_of_cancel (fun _ => .raised) 0 c9state).1,
   by decide,
   (c9_recover_state_forgets_regardless_of_cancel (fun _ => .raised) 0 c9state).2.1 1
     (by decide),
   (c9_recover_state_forgets_regardless_of_cancel (fun _ => .raised) 0 c9state).2.2.2.1⟩
